import Mathlib

/-!
Verification of the core algorithms of the Polymarket BTC 15-minute
dual-strategy arbitrage bot.

The Python source is embedded shallowly: floats become exact rationals
(`ℚ`), the explicit float tolerances of the source (such as the `1e-9`
slack in `compute_buy_fill` and `wait_for_terminal_order`) are kept as
rational constants, dictionaries become structures, `None` becomes
`Option`, and the stateful `RiskManager` becomes explicit state passing.
-/

set_option autoImplicit false

namespace PolyBot

/-- The `1e-9` tolerance constant used by `trading.compute_buy_fill` and
`trading.wait_for_terminal_order`. -/
def tol : ℚ := 1 / 1000000000

/-! ## `trading.compute_buy_fill` -/

/-- Result dictionary of `compute_buy_fill` (keys `filled`, `vwap`,
`worst`, `best`, `cost`).  `vwap` and `worst` are `Option` because the
Python code initialises them to `None` (`vwap` stays `None` when
`filled == 0`). -/
structure Fill where
  filled : ℚ
  vwap : Option ℚ
  worst : Option ℚ
  best : ℚ
  cost : ℚ
deriving Repr, DecidableEq

/-- Stable insertion into a price-ascending list; `sortAsks` below embeds
Python's stable `sorted(asks, key=lambda x: x[0])`. -/
def insertAsk (x : ℚ × ℚ) : List (ℚ × ℚ) → List (ℚ × ℚ)
  | [] => [x]
  | y :: ys => if x.1 ≤ y.1 then x :: y :: ys else y :: insertAsk x ys

/-- `sorted(asks, key=lambda x: x[0])`: stable sort by ascending price. -/
def sortAsks (asks : List (ℚ × ℚ)) : List (ℚ × ℚ) := asks.foldr insertAsk []

/-- The accumulation loop of `compute_buy_fill`: walks the (sorted) ask
levels, taking `min(size, target - filled)` from each, accumulating
`filled`, `cost` and the last touched price `worst`, and stopping once
`filled >= target_size`.  Returns `(filled, cost, worst)`. -/
def fillWalk (target : ℚ) : List (ℚ × ℚ) → ℚ → ℚ → Option ℚ → ℚ × ℚ × Option ℚ
  | [], filled, cost, worst => (filled, cost, worst)
  | (price, size) :: rest, filled, cost, worst =>
    if target ≤ filled then (filled, cost, worst)
    else
      let take := min size (target - filled)
      fillWalk target rest (filled + take) (cost + take * price) (some price)

/-- `trading.compute_buy_fill(asks, target_size)`. -/
def compute_buy_fill (asks : List (ℚ × ℚ)) (target_size : ℚ) : Option Fill :=
  if target_size ≤ 0 ∨ asks = [] then none
  else
    let sorted_asks := sortAsks asks
    let r := fillWalk target_size sorted_asks 0 0 none
    if r.1 + tol < target_size then none
    else
      some { filled := r.1
             vwap := if 0 < r.1 then some (r.2.1 / r.1) else none
             worst := r.2.2
             best := (sorted_asks.headD (0, 0)).1
             cost := r.2.1 }

/-- Cumulative depth of an ask list: the sum of the level sizes. -/
def depth (asks : List (ℚ × ℚ)) : ℚ := (asks.map (fun l => l.2)).sum

/-- The cost formula of the specification, written independently of the
accumulator loop: walking the levels in the given order, level `i`
contributes `price_i * taken_i` with
`taken_i = min size_i (remaining need, floored at 0)`. -/
def specCost (target : ℚ) : List (ℚ × ℚ) → ℚ
  | [] => 0
  | (price, size) :: rest =>
    let take := min size (max target 0)
    take * price + specCost (target - take) rest

/-! ## Momentum signals (`cex_price_feed.BinancePriceFeed`) -/

/-- Signal direction, `"UP"` or `"DOWN"` in the source. -/
inductive Dir where
  | UP
  | DOWN
deriving Repr, DecidableEq

/-- A single BTC price observation (`PriceSnapshot`). -/
structure PriceSnapshot where
  price : ℚ
  timestamp : ℚ
deriving Repr, DecidableEq

/-- The `MomentumSignal` dataclass.  `window_seconds` is an integer in the
source (`int(elapsed)` for the window signal, the lookback otherwise). -/
structure MomentumSignal where
  direction : Dir
  confidence : ℚ
  price_change_pct : ℚ
  current_price : ℚ
  reference_price : ℚ
  window_seconds : ℤ
  timestamp : ℚ
deriving Repr, DecidableEq

/-- The confidence step table of `get_momentum`. -/
def momentumConfidence (abs_change : ℚ) : ℚ :=
  if 1/2 ≤ abs_change then 95/100
  else if 3/10 ≤ abs_change then 85/100
  else if 15/100 ≤ abs_change then 75/100
  else if 8/100 ≤ abs_change then 65/100
  else if 5/100 ≤ abs_change then 55/100
  else 45/100

/-- The confidence step table of `get_window_momentum`. -/
def windowConfidence (abs_change : ℚ) : ℚ :=
  if 2/5 ≤ abs_change then 95/100
  else if 1/4 ≤ abs_change then 90/100
  else if 15/100 ≤ abs_change then 80/100
  else if 1/10 ≤ abs_change then 70/100
  else if 5/100 ≤ abs_change then 60/100
  else 1/2

/-- `BinancePriceFeed.get_momentum(lookback_seconds)`, with the feed's
mutable fields (`_prices`, `_current_price`) and the clock passed
explicitly. -/
def get_momentum (prices : List PriceSnapshot) (current_price : Option ℚ) (now : ℚ)
    (lookback_seconds : ℤ) : Option MomentumSignal :=
  match current_price with
  | none => none
  | some cur =>
    if prices = [] then none
    else
      let cutoff : ℚ := now - (lookback_seconds : ℚ)
      match prices.find? (fun s => decide (cutoff ≤ s.timestamp)) with
      | none => none
      | some snap =>
        if snap.price = 0 then none
        else
          let change_pct := (cur - snap.price) / snap.price * 100
          if |change_pct| < 1/100 then none
          else
            some { direction := if 0 < change_pct then .UP else .DOWN
                   confidence := momentumConfidence |change_pct|
                   price_change_pct := change_pct
                   current_price := cur
                   reference_price := snap.price
                   window_seconds := lookback_seconds
                   timestamp := now }

/-- `BinancePriceFeed.get_window_momentum()`.  Python truncates the
elapsed time with `int()`; the elapsed time is nonnegative in every run,
where truncation and floor agree. -/
def get_window_momentum (window_start_price current_price : Option ℚ)
    (window_start_time now : ℚ) : Option MomentumSignal :=
  match window_start_price, current_price with
  | some wsp, some cur =>
    if wsp = 0 then none
    else
      let change_pct := (cur - wsp) / wsp * 100
      if |change_pct| < 5/1000 then none
      else
        some { direction := if 0 < change_pct then .UP else .DOWN
               confidence := windowConfidence |change_pct|
               price_change_pct := change_pct
               current_price := cur
               reference_price := wsp
               window_seconds := ⌊now - window_start_time⌋
               timestamp := now }
  | _, _ => none

/-- Weight assigned by `get_multi_timeframe_signal` to the signal at
position `i` of the evaluated list: `1.0 + i * 0.5`, overridden to `3.0`
for any signal that compares equal (Python dataclass value equality) to
the window-start signal. -/
def fuseWeight (window_sig : Option MomentumSignal) (i : ℕ) (sig : MomentumSignal) : ℚ :=
  if window_sig = some sig then 3 else 1 + (i : ℚ) * (1/2)

/-- Core of `get_multi_timeframe_signal`, acting on the list of evaluated
non-absent signals (lookbacks in order, then the window signal). -/
def fuseList (window_sig : Option MomentumSignal) (now : ℚ) :
    List MomentumSignal → Option MomentumSignal
  | [] => none
  | s0 :: rest =>
    if rest.any (fun s => decide (s.direction ≠ s0.direction)) then none
    else
      let signals := s0 :: rest
      let total_weight := (signals.enum.map (fun p => fuseWeight window_sig p.1 p.2)).sum
      let weighted_conf :=
        (signals.enum.map (fun p => p.2.confidence * fuseWeight window_sig p.1 p.2)).sum
      let combined := if 0 < total_weight then weighted_conf / total_weight else 0
      let best := window_sig.getD (signals.getLastD s0)
      some { direction := s0.direction
             confidence := combined
             price_change_pct := best.price_change_pct
             current_price := best.current_price
             reference_price := best.reference_price
             window_seconds := best.window_seconds
             timestamp := now }

/-- `BinancePriceFeed.get_multi_timeframe_signal()`: evaluates the 15s,
30s, 60s lookbacks plus the window-start signal and fuses them. -/
def get_multi_timeframe_signal (prices : List PriceSnapshot) (current_price : Option ℚ)
    (window_start_price : Option ℚ) (window_start_time now : ℚ) : Option MomentumSignal :=
  let lookbacks := ([15, 30, 60] : List ℤ).filterMap
    (fun lb => get_momentum prices current_price now lb)
  let window_sig := get_window_momentum window_start_price current_price window_start_time now
  fuseList window_sig now (lookbacks ++ window_sig.toList)

/-- Fused confidence as the specification words it: positional weights
`1.0 + 0.5*i` for the lookback signals in evaluation order, and a fixed
weight `3.0` for the window-start signal when present. -/
def claimedFusedConf (lookbacks : List MomentumSignal)
    (window_sig : Option MomentumSignal) : ℚ :=
  let entries := lookbacks.enum.map (fun p => (p.2.confidence, 1 + (p.1 : ℚ) * (1/2)))
      ++ window_sig.toList.map (fun s => (s.confidence, (3 : ℚ)))
  (entries.map (fun e => e.1 * e.2)).sum / (entries.map (fun e => e.2)).sum

/-! ## Pure-arbitrage detection (`main.PolymarketArbBot.check_pure_arbitrage`) -/

/-- The opportunity dictionary built by `check_pure_arbitrage`. -/
structure PureArbOpp where
  price_up : ℚ
  price_down : ℚ
  total_cost : ℚ
  profit_per_share : ℚ
  profit_pct : ℚ
  order_size : ℚ
  total_investment : ℚ
  expected_payout : ℚ
  expected_profit : ℚ
  vwap_up : Option ℚ
  vwap_down : Option ℚ
deriving Repr, DecidableEq

/-- `check_pure_arbitrage(up_book, down_book)` with the two settings it
reads (`pure_arb_order_size`, `target_pair_cost`) passed explicitly and
the books reduced to their ask levels. -/
def check_pure_arbitrage (pure_arb_order_size target_pair_cost : ℚ)
    (asks_up asks_down : List (ℚ × ℚ)) : Option PureArbOpp :=
  match compute_buy_fill asks_up pure_arb_order_size,
        compute_buy_fill asks_down pure_arb_order_size with
  | some fill_up, some fill_down =>
    match fill_up.worst, fill_down.worst with
    | some limit_price_up, some limit_price_down =>
      let total_cost := limit_price_up + limit_price_down
      if total_cost ≤ target_pair_cost then
        some { price_up := limit_price_up
               price_down := limit_price_down
               total_cost := total_cost
               profit_per_share := 1 - total_cost
               profit_pct := if 0 < total_cost then (1 - total_cost) / total_cost * 100 else 0
               order_size := pure_arb_order_size
               total_investment := total_cost * pure_arb_order_size
               expected_payout := 1 * pure_arb_order_size
               expected_profit := 1 * pure_arb_order_size - total_cost * pure_arb_order_size
               vwap_up := fill_up.vwap
               vwap_down := fill_down.vwap }
      else none
    | _, _ => none
  | _, _ => none

/-! ## Risk gate (`risk_manager.RiskManager`) -/

/-- Structured refusal reasons standing in for the formatted strings of
`check_can_trade` (spec section 9 prescribes exactly this normalization).
The stored halt reason is the daily P&L recorded at halt time, `none`
standing for the initial empty string. -/
inductive Reason where
  | ok
  | tradingHalted (stored : Option ℚ)
  | dailyLossReached (pnl : ℚ)
  | exceedsSingleBet (cost maxBet : ℚ)
  | exceedsMaxPosition (current cost maxPosition : ℚ)
deriving Repr, DecidableEq

/-- The risk limits fixed at `RiskManager.__init__`. -/
structure RiskConfig where
  max_daily_loss : ℚ
  max_position_size : ℚ
  max_single_bet : ℚ
deriving Repr, DecidableEq

/-- The mutable state of `RiskManager`.  Days are abstract naturals; the
`_daily_stats` counters are reporting-only (they never feed back into
authorization, exposure or P&L) and are not modelled. -/
structure RiskState where
  current_exposure : ℚ
  daily_pnl : ℚ
  daily_pnl_date : ℕ
  halted : Bool
  halt_reason : Option ℚ
deriving Repr, DecidableEq

/-- The lazy daily rollover inlined in `check_can_trade`,
`record_settlement` and the `daily_pnl` property: on first access of a
new day, the daily P&L resets to 0. -/
def rollDaily (s : RiskState) (today : ℕ) : RiskState :=
  if s.daily_pnl_date = today then s else { s with daily_pnl := 0, daily_pnl_date := today }

/-- `RiskManager.check_can_trade(trade_cost)`, returning the decision,
the reason and the post-call state. -/
def check_can_trade (cfg : RiskConfig) (s : RiskState) (today : ℕ) (trade_cost : ℚ) :
    Bool × Reason × RiskState :=
  if s.halted then (false, .tradingHalted s.halt_reason, s)
  else
    let s1 := rollDaily s today
    if s1.daily_pnl < -cfg.max_daily_loss then
      (false, .dailyLossReached s1.daily_pnl,
        { s1 with halted := true, halt_reason := some s1.daily_pnl })
    else if cfg.max_single_bet < trade_cost then
      (false, .exceedsSingleBet trade_cost cfg.max_single_bet, s1)
    else if cfg.max_position_size < s1.current_exposure + trade_cost then
      (false, .exceedsMaxPosition s1.current_exposure trade_cost cfg.max_position_size, s1)
    else (true, .ok, s1)

/-- `RiskManager.record_trade(trade)`: adds the trade's cost to the
cumulative exposure. -/
def record_trade (s : RiskState) (cost : ℚ) : RiskState :=
  { s with current_exposure := s.current_exposure + cost }

/-- `RiskManager.record_settlement(trade, won, pnl)`: subtracts the
trade's cost from exposure floored at 0, then adds `pnl` to the daily
realized P&L after the lazy rollover. -/
def record_settlement (s : RiskState) (today : ℕ) (cost pnl : ℚ) : RiskState :=
  let s1 := { s with current_exposure := max 0 (s.current_exposure - cost) }
  let s2 := rollDaily s1 today
  { s2 with daily_pnl := s2.daily_pnl + pnl }

/-- `RiskManager.reset_daily()`: the explicit manual reset, the only
operation that clears the halted flag. -/
def reset_daily (s : RiskState) (today : ℕ) : RiskState :=
  { s with daily_pnl := 0, daily_pnl_date := today, halted := false, halt_reason := none }

/-- Fresh `RiskManager` state as built by `__init__`. -/
def initialRiskState : RiskState :=
  { current_exposure := 0, daily_pnl := 0, daily_pnl_date := 0
    halted := false, halt_reason := none }

/-- One risk-gate operation of a run: an authorization attempt, a trade
recording, or a settlement. -/
inductive RiskOp where
  | authorize (today : ℕ) (cost : ℚ)
  | recordOpen (cost : ℚ)
  | recordSettlement (today : ℕ) (cost pnl : ℚ)
deriving Repr, DecidableEq

/-- The trade cost an operation carries. -/
def RiskOp.cost : RiskOp → ℚ
  | .authorize _ c => c
  | .recordOpen c => c
  | .recordSettlement _ c _ => c

/-- State transition of one risk-gate operation. -/
def applyOp (cfg : RiskConfig) (s : RiskState) : RiskOp → RiskState
  | .authorize d c => (check_can_trade cfg s d c).2.2
  | .recordOpen c => record_trade s c
  | .recordSettlement d c p => record_settlement s d c p

/-- State after a sequence of risk-gate operations. -/
def runOps (cfg : RiskConfig) (s : RiskState) (ops : List RiskOp) : RiskState :=
  ops.foldl (applyOp cfg) s

/-! ## Order polling (`trading.wait_for_terminal_order`) -/

/-- One successful poll of the order endpoint, already normalized: the
lowercased status string and the parsed filled size (`none` when none of
the size keys parses). -/
structure PollResponse where
  status : String
  filled_size : Option ℚ
deriving Repr, DecidableEq

/-- The summary dictionary `wait_for_terminal_order` returns.  Loop-built
summaries carry no `filled` key; the trailing `setdefault` makes that
read as `filled = false`, which is the `filled` field's value on every
path that did not set it explicitly. -/
structure OrderSummary where
  status : Option String
  filled_size : Option ℚ
  filled : Bool
deriving Repr, DecidableEq

/-- The recognized terminal status strings. -/
def terminalStatuses : List String :=
  ["filled", "canceled", "cancelled", "rejected", "expired"]

/-- The guard `requested_size and filled_size and filled_size + 1e-9 >=
requested_size`, Python truthiness included (a `None` or zero size on
either side skips the check). -/
def sizeReached (requested_size filled_size : Option ℚ) : Bool :=
  match requested_size, filled_size with
  | some r, some f => decide (r ≠ 0) && decide (f ≠ 0) && decide (r ≤ f + tol)
  | _, _ => false

/-- The polling loop, driven by the finite sequence of poll outcomes the
timeout budget admits (`none` models a poll that raised).  An exhausted
list is the elapsed timeout. -/
def waitLoop (requested_size : Option ℚ) :
    List (Option PollResponse) → Option OrderSummary → OrderSummary
  | [], last =>
    match last with
    | none => { status := none, filled_size := none, filled := false }
    | some s => s
  | p :: rest, _ =>
    match p with
    | none =>
      waitLoop requested_size rest
        (some { status := some "error", filled_size := none, filled := false })
    | some od =>
      let summary : OrderSummary :=
        { status := some od.status, filled_size := od.filled_size, filled := false }
      if sizeReached requested_size od.filled_size then { summary with filled := true }
      else if od.status ∈ terminalStatuses then
        { summary with filled := decide (od.status = "filled") }
      else waitLoop requested_size rest (some summary)

/-- `trading.wait_for_terminal_order`, over the poll outcomes observed
before the timeout. -/
def wait_for_terminal_order (requested_size : Option ℚ)
    (polls : List (Option PollResponse)) : OrderSummary :=
  waitLoop requested_size polls none

/-- A poll outcome that does not terminate the loop: an error, or a
response that neither reaches the requested size nor carries a
recognized terminal status. -/
def nonTerminalPoll (requested_size : Option ℚ) (p : Option PollResponse) : Prop :=
  match p with
  | none => True
  | some od => sizeReached requested_size od.filled_size = false ∧
      od.status ∉ terminalStatuses

/-! ## Two-leg recovery (`main.PolymarketArbBot.execute_pure_arbitrage`) -/

/-- A leg's polled outcome as the recovery code reads it: the `filled`
flag of its `wait_for_terminal_order` summary. -/
structure LegState where
  filled : Bool
deriving Repr, DecidableEq

/-- An unwind order submitted by the recovery path. -/
structure SellOrder where
  token_id : String
  price : ℚ
  size : ℚ
  tif : String
deriving Repr, DecidableEq

/-- Unwind submission for one leg: a filled leg with a truthy best bid is
sold at that bid with time-in-force `FAK` (fill-and-kill, the
immediate-or-cancel type). -/
def unwindLeg (leg : LegState) (token_id : String) (best_bid : Option ℚ)
    (order_size : ℚ) : List SellOrder :=
  if leg.filled then
    match best_bid with
    | some b => if b ≠ 0 then [⟨token_id, b, order_size, "FAK"⟩] else []
    | none => []
  else []

/-- Outcome of the post-polling branch of `execute_pure_arbitrage`. -/
inductive ExecOutcome where
  | bothFilled
  | cleanup (cancelled : List String) (unwinds : List SellOrder)
deriving Repr, DecidableEq

/-- The branch of `execute_pure_arbitrage` after both legs were polled:
if both report filled the trade is recorded, otherwise the cleanup path
cancels `[oid for oid in order_ids if oid]` and unwinds each filled leg
at the current best bid. -/
def pureArbFinish (up_state down_state : LegState) (up_oid down_oid : Option String)
    (yes_token no_token : String) (up_bid down_bid : Option ℚ)
    (order_size : ℚ) : ExecOutcome :=
  if up_state.filled && down_state.filled then .bothFilled
  else
    .cleanup ([up_oid, down_oid].filterMap id)
      (unwindLeg up_state yes_token up_bid order_size ++
        unwindLeg down_state no_token down_bid order_size)

/-! ## Cooldown throttling (`main.PolymarketArbBot.execute_*_arbitrage`) -/

/-- The bot state the cooldown logic touches: the `_last_trade_ts`
timestamp and the risk gate. -/
structure BotState where
  last_trade_ts : ℚ
  risk : RiskState
deriving Repr, DecidableEq

/-- One opportunity reaching an `execute_*_arbitrage` call: its wall
clock time, the current day and the proposed investment. -/
structure TradeAttempt where
  time : ℚ
  today : ℕ
  cost : ℚ
deriving Repr, DecidableEq

/-- What one `execute_*_arbitrage` call did. -/
inductive ExecResult where
  | skippedCooldown
  | riskRejected (r : Reason)
  | executed
deriving Repr, DecidableEq

/-- Head of `execute_pure_arbitrage` / `execute_temporal_arbitrage`
(identical in both): skip while `now - _last_trade_ts <
cooldown_seconds`, otherwise stamp `_last_trade_ts := now` and only then
consult the risk gate; an authorized trade is recorded. -/
def executeOpp (cfg : RiskConfig) (cooldown_seconds : ℚ) (s : BotState)
    (e : TradeAttempt) : ExecResult × BotState :=
  if e.time - s.last_trade_ts < cooldown_seconds then (.skippedCooldown, s)
  else
    let s1 : BotState := { s with last_trade_ts := e.time }
    let c := check_can_trade cfg s1.risk e.today e.cost
    if c.1 then (.executed, { s1 with risk := record_trade c.2.2 e.cost })
    else (.riskRejected c.2.1, { s1 with risk := c.2.2 })

/-- Times of the trades actually executed over a sequence of incoming
opportunities. -/
def runEvents (cfg : RiskConfig) (cooldown_seconds : ℚ) :
    BotState → List TradeAttempt → List ℚ
  | _, [] => []
  | s, e :: rest =>
    let r := executeOpp cfg cooldown_seconds s e
    (if r.1 = .executed then [e.time] else []) ++ runEvents cfg cooldown_seconds r.2 rest

/-! ## Helper lemmas on the fill walk -/

theorem insertAsk_perm (x : ℚ × ℚ) (l : List (ℚ × ℚ)) :
    List.Perm (insertAsk x l) (x :: l) := by
  induction l with
  | nil => simp [insertAsk]
  | cons y ys ih =>
    simp only [insertAsk]
    split
    · exact List.Perm.refl _
    · exact ((ih.cons y).trans (List.Perm.swap x y ys))

theorem sortAsks_perm (l : List (ℚ × ℚ)) : List.Perm (sortAsks l) l := by
  induction l with
  | nil => simp [sortAsks]
  | cons x xs ih =>
    simpa [sortAsks] using ((insertAsk_perm x (sortAsks xs)).trans (ih.cons x))

theorem depth_sortAsks (l : List (ℚ × ℚ)) : depth (sortAsks l) = depth l := by
  simp only [depth]
  exact List.Perm.sum_eq (List.Perm.map _ (sortAsks_perm l))

theorem depth_nonneg {l : List (ℚ × ℚ)} (hs : ∀ p ∈ l, 0 ≤ p.2) : 0 ≤ depth l := by
  induction l with
  | nil => simp [depth]
  | cons x xs ih =>
    have hx := hs x (by simp)
    have hxs : 0 ≤ depth xs := ih (fun p hp => hs p (by simp [hp]))
    have : 0 ≤ x.2 + depth xs := add_nonneg hx hxs
    simpa [depth] using this

theorem specCost_nonpos {t : ℚ} (l : List (ℚ × ℚ)) (ht : t ≤ 0)
    (hs : ∀ p ∈ l, 0 ≤ p.2) : specCost t l = 0 := by
  induction l generalizing t with
  | nil => simp [specCost]
  | cons x xs ih =>
    obtain ⟨p, s⟩ := x
    have hx : (0:ℚ) ≤ s := hs (p, s) (by simp)
    have hmax : max t 0 = 0 := max_eq_right ht
    have hmin : min s (0:ℚ) = 0 := min_eq_right hx
    simp only [specCost, hmax, hmin]
    have := ih (t := t) ht (fun q hq => hs q (by simp [hq]))
    simpa using this

theorem fillWalk_filled (target : ℚ) (l : List (ℚ × ℚ)) (f c : ℚ) (w : Option ℚ)
    (hs : ∀ p ∈ l, 0 ≤ p.2) (hf : f ≤ target) :
    (fillWalk target l f c w).1 = f + min (target - f) (depth l) := by
  induction l generalizing f c w with
  | nil => simp [fillWalk, depth, min_eq_right (sub_nonneg.mpr hf)]
  | cons x xs ih =>
    obtain ⟨p, s⟩ := x
    have hx : (0:ℚ) ≤ s := hs (p, s) (by simp)
    have hxs : ∀ q ∈ xs, 0 ≤ q.2 := fun q hq => hs q (by simp [hq])
    have hd : 0 ≤ depth xs := depth_nonneg hxs
    have hdc : 0 ≤ depth ((p, s) :: xs) := depth_nonneg hs
    simp only [fillWalk]
    split
    · rename_i hle
      have hft : f = target := le_antisymm hf hle
      simp [hft, min_eq_left hdc]
    · rename_i hlt
      push_neg at hlt
      have htake : min s (target - f) ≤ target - f := min_le_right _ _
      have hrec := ih (f + min s (target - f)) (c + min s (target - f) * p) (some p) hxs
        (by linarith)
      rw [hrec]
      have hdepth : depth ((p, s) :: xs) = s + depth xs := by simp [depth]
      rw [hdepth]
      rcases le_total s (target - f) with hc | hc
      · rw [min_eq_left hc]
        rcases le_total (target - (f + s)) (depth xs) with h2 | h2
        · rw [min_eq_left h2, min_eq_left (show target - f ≤ s + depth xs by linarith)]
          ring
        · rw [min_eq_right h2, min_eq_right (show s + depth xs ≤ target - f by linarith)]
          ring
      · rw [min_eq_right hc]
        rw [show target - (f + (target - f)) = 0 by ring, min_eq_left hd,
          min_eq_left (show target - f ≤ s + depth xs by linarith)]
        ring

theorem fillWalk_cost (target : ℚ) (l : List (ℚ × ℚ)) (f c : ℚ) (w : Option ℚ)
    (hs : ∀ p ∈ l, 0 ≤ p.2) (hf : f ≤ target) :
    (fillWalk target l f c w).2.1 = c + specCost (target - f) l := by
  induction l generalizing f c w with
  | nil => simp [fillWalk, specCost]
  | cons x xs ih =>
    obtain ⟨p, s⟩ := x
    have hx : (0:ℚ) ≤ s := hs (p, s) (by simp)
    have hxs : ∀ q ∈ xs, 0 ≤ q.2 := fun q hq => hs q (by simp [hq])
    simp only [fillWalk]
    split
    · rename_i hle
      have hft : f = target := le_antisymm hf hle
      rw [specCost_nonpos _ (by linarith) hs]
      ring
    · rename_i hlt
      push_neg at hlt
      have htake : min s (target - f) ≤ target - f := min_le_right _ _
      have hrec := ih (f + min s (target - f)) (c + min s (target - f) * p) (some p) hxs
        (by linarith)
      rw [hrec]
      have hmax : max (target - f) 0 = target - f := max_eq_left (by linarith)
      simp only [specCost, hmax]
      rw [show target - (f + min s (target - f)) = target - f - min s (target - f) by ring]
      ring

/-- Closed form of `compute_buy_fill` on a nonempty book and positive
target: the walk fills `min target (depth asks)` at the spec cost of the
price-sorted book. -/
theorem compute_buy_fill_closed (asks : List (ℚ × ℚ)) (target : ℚ)
    (hs : ∀ p ∈ asks, 0 ≤ p.2) (ht : 0 < target) (hnil : asks ≠ []) :
    compute_buy_fill asks target =
      (if min target (depth asks) + tol < target then none
       else some
         { filled := min target (depth asks)
           vwap := if 0 < min target (depth asks) then
               some (specCost target (sortAsks asks) / min target (depth asks)) else none
           worst := (fillWalk target (sortAsks asks) 0 0 none).2.2
           best := ((sortAsks asks).headD (0, 0)).1
           cost := specCost target (sortAsks asks) }) := by
  have hsorted : ∀ p ∈ sortAsks asks, 0 ≤ p.2 :=
    fun q hq => hs q ((sortAsks_perm asks).mem_iff.mp hq)
  have hfill : (fillWalk target (sortAsks asks) 0 0 none).1 = min target (depth asks) := by
    rw [fillWalk_filled target (sortAsks asks) 0 0 none hsorted (le_of_lt ht),
      depth_sortAsks]
    norm_num
  have hcost : (fillWalk target (sortAsks asks) 0 0 none).2.1
      = specCost target (sortAsks asks) := by
    rw [fillWalk_cost target (sortAsks asks) 0 0 none hsorted (le_of_lt ht)]
    norm_num
  simp only [compute_buy_fill, if_neg (show ¬(target ≤ 0 ∨ asks = []) by
    simp [not_le.mpr ht, hnil]), hfill, hcost]

/-- C1 (amended): with nonnegative level sizes and a positive target `S`,
`compute_buy_fill` returns absent whenever the cumulative depth is more
than the `1e-9` tolerance short of `S`, and whenever the depth is at
least `S` it returns a fill of exactly `S` shares whose cost is the spec
sum `Σ price_i * taken_i` over the price-ascending levels and whose vwap
is that cost divided by `S`. -/
theorem c1_fill_estimation (asks : List (ℚ × ℚ)) (target : ℚ)
    (hs : ∀ p ∈ asks, 0 ≤ p.2) (ht : 0 < target) :
    (depth asks + tol < target → compute_buy_fill asks target = none) ∧
    (target ≤ depth asks →
      ∃ f, compute_buy_fill asks target = some f ∧ f.filled = target ∧
        f.cost = specCost target (sortAsks asks) ∧
        f.vwap = some (specCost target (sortAsks asks) / target)) := by
  constructor
  · intro hlt
    by_cases hnil : asks = []
    · simp [compute_buy_fill, hnil]
    · rw [compute_buy_fill_closed asks target hs ht hnil]
      have htol : (0:ℚ) < tol := by norm_num [tol]
      have hdlt : depth asks < target := by linarith
      rw [min_eq_right (le_of_lt hdlt)]
      exact if_pos hlt
  · intro hge
    have hnil : asks ≠ [] := by
      intro h
      rw [h] at hge
      simp [depth] at hge
      linarith
    rw [compute_buy_fill_closed asks target hs ht hnil]
    have hmin : min target (depth asks) = target := min_eq_left hge
    rw [hmin, if_neg (show ¬target + tol < target by norm_num [tol]), if_pos ht]
    exact ⟨_, rfl, rfl, rfl, rfl⟩

/-- C1 as literally stated is false: for asks `[(0.5, 1)]` and target
size `1 + 1e-10` the cumulative depth `1` is strictly less than the
target, yet `compute_buy_fill` does not return absent (the `1e-9`
tolerance accepts the short fill). -/
theorem c1_fill_estimation_counterexample :
    depth [((1:ℚ)/2, 1)] < 1 + 1/10000000000 ∧
    compute_buy_fill [((1:ℚ)/2, 1)] (1 + 1/10000000000) ≠ none := by
  constructor
  · norm_num [depth]
  · norm_num [compute_buy_fill, sortAsks, insertAsk, fillWalk, tol]
    simp

/-- Witness for `c1_fill_estimation` at the spec scenario: asks
`[(0.40, 100), (0.42, 50)]`, target 120 fills 120 shares at cost 48.4,
vwap 121/300 and worst price 0.42. -/
theorem c1_fill_estimation_witness :
    ((∀ p ∈ [((2:ℚ)/5, (100:ℚ)), (21/50, 50)], 0 ≤ p.2) ∧ (0:ℚ) < 120 ∧
      (120:ℚ) ≤ depth [((2:ℚ)/5, 100), (21/50, 50)]) ∧
    (∃ f, compute_buy_fill [((2:ℚ)/5, 100), (21/50, 50)] 120 = some f ∧
        f.filled = 120 ∧
        f.cost = specCost 120 (sortAsks [((2:ℚ)/5, 100), (21/50, 50)]) ∧
        f.vwap = some (specCost 120 (sortAsks [((2:ℚ)/5, 100), (21/50, 50)]) / 120)) ∧
    compute_buy_fill [((2:ℚ)/5, 100), (21/50, 50)] 120 =
      some { filled := 120, vwap := some (121/300), worst := some (21/50),
             best := 2/5, cost := 242/5 } := by
  have hs : ∀ p ∈ [((2:ℚ)/5, (100:ℚ)), (21/50, 50)], 0 ≤ p.2 := by
    intro p hp
    simp only [List.mem_cons, List.not_mem_nil, or_false] at hp
    rcases hp with rfl | rfl <;> norm_num
  refine ⟨⟨hs, by norm_num, by norm_num [depth]⟩, ?_, ?_⟩
  · exact (c1_fill_estimation _ 120 hs (by norm_num)).2 (by norm_num [depth])
  · norm_num [compute_buy_fill, sortAsks, insertAsk, fillWalk, tol]
    simp

/-- C2 (confirmed): given that both fill estimates succeed and report
worst prices, `check_pure_arbitrage` emits an opportunity exactly when
`worstAskUp + worstAskDown` is at most the configured pair-cost
threshold, and the emitted profit-per-share is exactly
`1 - (worstAskUp + worstAskDown)`. -/
theorem c2_pure_arb_condition (size tpc : ℚ) (asks_up asks_down : List (ℚ × ℚ))
    (fu fd : Fill) (wu wd : ℚ)
    (hu : compute_buy_fill asks_up size = some fu)
    (hdn : compute_buy_fill asks_down size = some fd)
    (hwu : fu.worst = some wu) (hwd : fd.worst = some wd) :
    ((check_pure_arbitrage size tpc asks_up asks_down).isSome ↔ wu + wd ≤ tpc) ∧
    (∀ o, check_pure_arbitrage size tpc asks_up asks_down = some o →
      o.profit_per_share = 1 - (wu + wd)) := by
  simp only [check_pure_arbitrage, hu, hdn, hwu, hwd]
  by_cases h : wu + wd ≤ tpc
  · rw [if_pos h]
    refine ⟨by simp [h], ?_⟩
    intro o ho
    have := Option.some.inj ho
    rw [← this]
  · rw [if_neg h]
    exact ⟨by simp [h], by intro o ho; cases ho⟩

/-- Witness for `c2_pure_arb_condition` at the spec scenario:
`worstAskUp = 0.495`, `worstAskDown = 0.494`, threshold `0.993` emits an
opportunity with profit-per-share `0.011`. -/
theorem c2_pure_arb_condition_witness :
    (compute_buy_fill [((99:ℚ)/200, 100)] 100 =
      some { filled := 100, vwap := some (99/200), worst := some (99/200),
             best := 99/200, cost := 99/2 }) ∧
    (compute_buy_fill [((247:ℚ)/500, 100)] 100 =
      some { filled := 100, vwap := some (247/500), worst := some (247/500),
             best := 247/500, cost := 247/5 }) ∧
    (check_pure_arbitrage 100 (993/1000) [((99:ℚ)/200, 100)]
      [((247:ℚ)/500, 100)]).isSome = true ∧
    (∀ o, check_pure_arbitrage 100 (993/1000) [((99:ℚ)/200, 100)]
        [((247:ℚ)/500, 100)] = some o →
      o.profit_per_share = 1 - ((99:ℚ)/200 + 247/500)) ∧
    1 - ((99:ℚ)/200 + 247/500) = 11/1000 := by
  have h1 : compute_buy_fill [((99:ℚ)/200, 100)] 100 =
      some { filled := 100, vwap := some (99/200), worst := some (99/200),
             best := 99/200, cost := 99/2 } := by
    norm_num [compute_buy_fill, sortAsks, insertAsk, fillWalk, tol]
  have h2 : compute_buy_fill [((247:ℚ)/500, 100)] 100 =
      some { filled := 100, vwap := some (247/500), worst := some (247/500),
             best := 247/500, cost := 247/5 } := by
    norm_num [compute_buy_fill, sortAsks, insertAsk, fillWalk, tol]
  have hmain := c2_pure_arb_condition 100 (993/1000) [((99:ℚ)/200, 100)]
    [((247:ℚ)/500, 100)] _ _ (99/200) (247/500) h1 h2 rfl rfl
  exact ⟨h1, h2, hmain.1.mpr (by norm_num), hmain.2, by norm_num⟩

/-! ## Risk-gate helper lemmas -/

theorem rollDaily_date (s : RiskState) (today : ℕ) :
    (rollDaily s today).daily_pnl_date = today := by
  simp only [rollDaily]
  split
  · rename_i h
    exact h
  · rfl

theorem rollDaily_of_date {s : RiskState} {today : ℕ} (h : s.daily_pnl_date = today) :
    rollDaily s today = s := by
  simp [rollDaily, h]

theorem rollDaily_halted (s : RiskState) (today : ℕ) :
    (rollDaily s today).halted = s.halted := by
  simp only [rollDaily]
  split <;> rfl

theorem rollDaily_exposure (s : RiskState) (today : ℕ) :
    (rollDaily s today).current_exposure = s.current_exposure := by
  simp only [rollDaily]
  split <;> rfl

theorem rollDaily_reason (s : RiskState) (today : ℕ) :
    (rollDaily s today).halt_reason = s.halt_reason := by
  simp only [rollDaily]
  split <;> rfl

theorem check_can_trade_of_halted (cfg : RiskConfig) {s : RiskState} (today : ℕ)
    (cost : ℚ) (h : s.halted = true) :
    check_can_trade cfg s today cost = (false, .tradingHalted s.halt_reason, s) := by
  simp [check_can_trade, h]

theorem check_can_trade_of_dailyLoss (cfg : RiskConfig) {s : RiskState} (today : ℕ)
    (cost : ℚ) (h0 : s.halted = false)
    (h1 : (rollDaily s today).daily_pnl < -cfg.max_daily_loss) :
    check_can_trade cfg s today cost =
      (false, .dailyLossReached (rollDaily s today).daily_pnl,
        { (rollDaily s today) with
            halted := true
            halt_reason := some (rollDaily s today).daily_pnl }) := by
  simp [check_can_trade, h0, h1]

theorem check_can_trade_state_of_ok (cfg : RiskConfig) {s : RiskState} (today : ℕ)
    (cost : ℚ) (h0 : s.halted = false)
    (h1 : ¬(rollDaily s today).daily_pnl < -cfg.max_daily_loss) :
    (check_can_trade cfg s today cost).2.2 = rollDaily s today := by
  simp only [check_can_trade, h0, Bool.false_eq_true, if_false, if_neg h1]
  split <;> first | rfl | (split <;> rfl)

theorem check_can_trade_fst (cfg : RiskConfig) (s : RiskState) (today : ℕ) (cost : ℚ) :
    (check_can_trade cfg s today cost).1 =
      (!s.halted &&
        !(decide ((rollDaily s today).daily_pnl < -cfg.max_daily_loss)) &&
        !(decide (cfg.max_single_bet < cost)) &&
        !(decide (cfg.max_position_size < (rollDaily s today).current_exposure + cost))) := by
  by_cases h0 : s.halted = true
  · simp [check_can_trade, h0]
  · rw [Bool.not_eq_true] at h0
    simp only [check_can_trade, h0, Bool.false_eq_true, if_false, Bool.not_false,
      Bool.true_and]
    by_cases h1 : (rollDaily s today).daily_pnl < -cfg.max_daily_loss
    · simp [h1]
    · by_cases h2 : cfg.max_single_bet < cost
      · simp [h1, h2]
      · by_cases h3 : cfg.max_position_size < (rollDaily s today).current_exposure + cost
        · simp [h1, h2, h3]
        · simp [h1, h2, h3]

/-- C9 (confirmed): evaluating `check_can_trade` twice in succession on
the same day with the same proposed cost, with no trade recorded in
between, yields the same accept/reject decision both times — including
when the first evaluation itself halts the gate. -/
theorem c9_authorize_idempotent (cfg : RiskConfig) (s : RiskState) (today : ℕ) (cost : ℚ) :
    (check_can_trade cfg ((check_can_trade cfg s today cost).2.2) today cost).1 =
      (check_can_trade cfg s today cost).1 := by
  by_cases h0 : s.halted = true
  · rw [check_can_trade_of_halted cfg today cost h0]
    rw [check_can_trade_of_halted cfg today cost h0]
  · rw [Bool.not_eq_true] at h0
    by_cases h1 : (rollDaily s today).daily_pnl < -cfg.max_daily_loss
    · rw [check_can_trade_of_dailyLoss cfg today cost h0 h1]
      rw [check_can_trade_of_halted cfg today cost rfl]
    · have hstate := check_can_trade_state_of_ok cfg today cost h0 h1
      rw [hstate, check_can_trade_fst, check_can_trade_fst]
      rw [rollDaily_of_date (rollDaily_date s today)]
      rw [rollDaily_halted, h0]

theorem record_trade_halted (s : RiskState) (cost : ℚ) :
    (record_trade s cost).halted = s.halted := rfl

theorem record_settlement_halted (s : RiskState) (today : ℕ) (cost pnl : ℚ) :
    (record_settlement s today cost pnl).halted = s.halted := by
  simp [record_settlement, rollDaily_halted]

theorem record_settlement_exposure (s : RiskState) (today : ℕ) (cost pnl : ℚ) :
    (record_settlement s today cost pnl).current_exposure =
      max 0 (s.current_exposure - cost) := by
  simp [record_settlement, rollDaily_exposure]

theorem check_can_trade_exposure (cfg : RiskConfig) (s : RiskState) (today : ℕ)
    (cost : ℚ) :
    (check_can_trade cfg s today cost).2.2.current_exposure = s.current_exposure := by
  by_cases h0 : s.halted = true
  · rw [check_can_trade_of_halted cfg today cost h0]
  · rw [Bool.not_eq_true] at h0
    by_cases h1 : (rollDaily s today).daily_pnl < -cfg.max_daily_loss
    · rw [check_can_trade_of_dailyLoss cfg today cost h0 h1]
      exact rollDaily_exposure s today
    · rw [check_can_trade_state_of_ok cfg today cost h0 h1]
      exact rollDaily_exposure s today

/-- C4 (amended): while halted, `check_can_trade` always rejects with the
stored halt reason and leaves the state unchanged; from the active state
the call transitions to halted exactly when the rolled-over daily
realized P&L is strictly below `-max_daily_loss` (and that check comes
before every other limit, rejecting with the daily-loss reason
regardless of the proposed cost); and the halted flag survives
`check_can_trade`, `record_trade` and `record_settlement` — in
particular the lazy daily rollover inside them never clears it. -/
theorem c4_halt_state_machine (cfg : RiskConfig) (s : RiskState) (today : ℕ) (cost : ℚ) :
    (s.halted = true →
      check_can_trade cfg s today cost = (false, .tradingHalted s.halt_reason, s)) ∧
    (s.halted = false →
      (((check_can_trade cfg s today cost).2.2.halted = true) ↔
        (rollDaily s today).daily_pnl < -cfg.max_daily_loss) ∧
      ((rollDaily s today).daily_pnl < -cfg.max_daily_loss →
        check_can_trade cfg s today cost =
          (false, .dailyLossReached (rollDaily s today).daily_pnl,
            { (rollDaily s today) with
                halted := true
                halt_reason := some (rollDaily s today).daily_pnl }))) ∧
    (s.halted = true →
      (check_can_trade cfg s today cost).2.2.halted = true ∧
      (record_trade s cost).halted = true ∧
      ∀ pnl, (record_settlement s today cost pnl).halted = true) := by
  refine ⟨fun h => check_can_trade_of_halted cfg today cost h, fun h0 => ⟨?_, ?_⟩, fun h => ⟨?_, ?_, ?_⟩⟩
  · by_cases h1 : (rollDaily s today).daily_pnl < -cfg.max_daily_loss
    · rw [check_can_trade_of_dailyLoss cfg today cost h0 h1]
      simp [h1]
    · rw [check_can_trade_state_of_ok cfg today cost h0 h1]
      rw [rollDaily_halted, h0]
      simp [h1]
  · intro h1
    exact check_can_trade_of_dailyLoss cfg today cost h0 h1
  · rw [check_can_trade_of_halted cfg today cost h]
    exact h
  · rw [record_trade_halted]
    exact h
  · intro pnl
    rw [record_settlement_halted]
    exact h

/-- C4 as literally stated ("at or below `-maxDailyLoss`") is false: with
`max_daily_loss = 500` and daily P&L exactly `-500` the gate neither
halts nor rejects — the source tests `daily_pnl < -max_daily_loss`
strictly, so the boundary value still authorizes. -/
theorem c4_halt_state_machine_counterexample :
    check_can_trade { max_daily_loss := 500, max_position_size := 5000, max_single_bet := 500 }
        { current_exposure := 0, daily_pnl := -500, daily_pnl_date := 0,
          halted := false, halt_reason := none } 0 10 =
      (true, .ok,
        { current_exposure := 0, daily_pnl := -500, daily_pnl_date := 0,
          halted := false, halt_reason := none }) := by
  norm_num [check_can_trade, rollDaily]

/-- Witness for `c4_halt_state_machine`: a daily P&L of `-501` against a
limit of 500 halts the gate during authorization, and a halted gate
rejects with the stored reason. -/
theorem c4_halt_state_machine_witness :
    ((check_can_trade { max_daily_loss := 500, max_position_size := 5000, max_single_bet := 500 }
        { current_exposure := 0, daily_pnl := -501, daily_pnl_date := 0,
          halted := false, halt_reason := none } 0 10).2.2.halted = true) ∧
    (check_can_trade { max_daily_loss := 500, max_position_size := 5000, max_single_bet := 500 }
        { current_exposure := 0, daily_pnl := 0, daily_pnl_date := 0,
          halted := true, halt_reason := some (-501) } 0 10 =
      (false, .tradingHalted (some (-501)),
        { current_exposure := 0, daily_pnl := 0, daily_pnl_date := 0,
          halted := true, halt_reason := some (-501) })) :=
  ⟨((c4_halt_state_machine _ _ 0 10).2.1 rfl).1.mpr (by norm_num [rollDaily]),
    (c4_halt_state_machine _ _ 0 10).1 rfl⟩

theorem applyOp_exposure_nonneg (cfg : RiskConfig) (s : RiskState) (op : RiskOp)
    (hc : 0 ≤ op.cost) (hs : 0 ≤ s.current_exposure) :
    0 ≤ (applyOp cfg s op).current_exposure := by
  cases op with
  | authorize d c =>
    simp only [applyOp, check_can_trade_exposure]
    exact hs
  | recordOpen c =>
    simp only [applyOp, record_trade]
    exact add_nonneg hs hc
  | recordSettlement d c p =>
    simp only [applyOp, record_settlement_exposure]
    exact le_max_left 0 _

theorem runOps_exposure_nonneg (cfg : RiskConfig) (ops : List RiskOp) :
    ∀ s : RiskState, 0 ≤ s.current_exposure → (∀ op ∈ ops, 0 ≤ op.cost) →
      0 ≤ (runOps cfg s ops).current_exposure := by
  induction ops with
  | nil =>
    intro s hs _
    simpa [runOps] using hs
  | cons op rest ih =>
    intro s hs hops
    have hstep := applyOp_exposure_nonneg cfg s op (hops op (by simp)) hs
    have hfold : runOps cfg s (op :: rest) = runOps cfg (applyOp cfg s op) rest := by
      simp [runOps]
    rw [hfold]
    exact ih _ hstep (fun o ho => hops o (by simp [ho]))

/-- C5 (confirmed): authorization never changes the cumulative exposure
and always rejects while halted; settlement sets exposure to the old
exposure minus the trade cost floored at 0; with nonnegative costs the
only operation that can increase exposure is recording an opened trade;
and every state reachable from the initial state by risk-gate operations
with nonnegative costs has nonnegative exposure. -/
theorem c5_exposure_accounting (cfg : RiskConfig) :
    (∀ (s : RiskState) (today : ℕ) (cost : ℚ),
      (check_can_trade cfg s today cost).2.2.current_exposure = s.current_exposure) ∧
    (∀ (s : RiskState) (today : ℕ) (cost : ℚ), s.halted = true →
      (check_can_trade cfg s today cost).1 = false) ∧
    (∀ (s : RiskState) (today : ℕ) (cost pnl : ℚ),
      (record_settlement s today cost pnl).current_exposure =
        max 0 (s.current_exposure - cost)) ∧
    (∀ (s : RiskState) (op : RiskOp), 0 ≤ op.cost → 0 ≤ s.current_exposure →
      s.current_exposure < (applyOp cfg s op).current_exposure →
      ∃ c, op = RiskOp.recordOpen c) ∧
    (∀ ops : List RiskOp, (∀ op ∈ ops, 0 ≤ op.cost) →
      0 ≤ (runOps cfg initialRiskState ops).current_exposure) := by
  refine ⟨fun s today cost => check_can_trade_exposure cfg s today cost,
    fun s today cost h => ?_,
    fun s today cost pnl => record_settlement_exposure s today cost pnl,
    fun s op hc hs hlt => ?_,
    fun ops hops => runOps_exposure_nonneg cfg ops initialRiskState (by norm_num [initialRiskState]) hops⟩
  · rw [check_can_trade_of_halted cfg today cost h]
  · cases op with
    | authorize d c =>
      rw [show applyOp cfg s (RiskOp.authorize d c) = (check_can_trade cfg s d c).2.2 from rfl,
        check_can_trade_exposure] at hlt
      exact absurd hlt (lt_irrefl _)
    | recordOpen c => exact ⟨c, rfl⟩
    | recordSettlement d c p =>
      rw [show applyOp cfg s (RiskOp.recordSettlement d c p) = record_settlement s d c p
        from rfl, record_settlement_exposure] at hlt
      have hcost : (0:ℚ) ≤ c := hc
      have hle : max 0 (s.current_exposure - c) ≤ s.current_exposure :=
        max_le hs (by linarith)
      exact absurd hlt (not_lt.mpr hle)

/-- Witness for `c5_exposure_accounting`: a concrete
authorize/open/settle run from the initial state keeps exposure
nonnegative, and a halted gate rejects. -/
theorem c5_exposure_accounting_witness :
    (0 ≤ (runOps { max_daily_loss := 500, max_position_size := 5000, max_single_bet := 500 }
      initialRiskState
      [.authorize 0 100, .recordOpen 100, .recordSettlement 0 100 (-5)]).current_exposure) ∧
    ((check_can_trade { max_daily_loss := 500, max_position_size := 5000, max_single_bet := 500 }
        { current_exposure := 0, daily_pnl := 0, daily_pnl_date := 0,
          halted := true, halt_reason := none } 0 100).1 = false) :=
  ⟨(c5_exposure_accounting _).2.2.2.2 _
      (by
        intro op hop
        fin_cases hop <;> norm_num [RiskOp.cost]),
    (c5_exposure_accounting _).2.1 _ 0 100 rfl⟩

theorem waitLoop_not_filled (requested : Option ℚ) (polls : List (Option PollResponse)) :
    ∀ last : Option OrderSummary,
      (∀ p ∈ polls, nonTerminalPoll requested p) →
      (∀ s, last = some s → s.filled = false) →
      (waitLoop requested polls last).filled = false := by
  induction polls with
  | nil =>
    intro last _ hlast
    cases last with
    | none => rfl
    | some s => exact hlast s rfl
  | cons p rest ih =>
    intro last hnt hlast
    cases p with
    | none =>
      simp only [waitLoop]
      refine ih _ (fun q hq => hnt q (by simp [hq])) ?_
      intro s hs
      injection hs with h
      rw [← h]
    | some od =>
      have hcond := hnt (some od) (by simp)
      simp only [nonTerminalPoll] at hcond
      simp only [waitLoop, hcond.1, Bool.false_eq_true, if_false, if_neg hcond.2]
      refine ih _ (fun q hq => hnt q (by simp [hq])) ?_
      intro s hs
      injection hs with h
      rw [← h]

/-- C6 (confirmed): a poll response whose filled size reaches the
requested size (positive) is terminal and reported as filled, whatever
its status string — the size check runs before the status check; if
every poll before the timeout is an error or a non-terminal response,
the returned summary reports `filled = false` (timed out, not failed);
and an erroring poll continues the loop rather than propagating. -/
theorem c6_order_polling (requested fs : ℚ) (st : String)
    (rest polls : List (Option PollResponse))
    (hreq : 0 < requested) (hfs : requested ≤ fs) :
    (wait_for_terminal_order (some requested) (some ⟨st, some fs⟩ :: rest) =
      { status := some st, filled_size := some fs, filled := true }) ∧
    ((∀ p ∈ polls, nonTerminalPoll (some requested) p) →
      (wait_for_terminal_order (some requested) polls).filled = false) ∧
    (∀ last, waitLoop (some requested) (none :: polls) last =
      waitLoop (some requested) polls
        (some { status := some "error", filled_size := none, filled := false })) := by
  have htol : (0:ℚ) < tol := by norm_num [tol]
  have hsz : sizeReached (some requested) (some fs) = true := by
    simp only [sizeReached]
    rw [decide_eq_true (ne_of_gt hreq),
      decide_eq_true (ne_of_gt (lt_of_lt_of_le hreq hfs)),
      decide_eq_true (show requested ≤ fs + tol by linarith)]
    rfl
  refine ⟨?_,
    fun h => waitLoop_not_filled _ polls none h (by intro s hs; cases hs),
    fun last => rfl⟩
  simp only [wait_for_terminal_order, waitLoop, hsz, if_true]

/-- Witness for `c6_order_polling`: a poll reporting 100 of 100 filled
with the unrecognized-as-filled status `"canceled"` is still reported
filled (size is authoritative and checked first), and a run of one
non-terminal response followed by an error times out with
`filled = false`. -/
theorem c6_order_polling_witness :
    ((0:ℚ) < 100 ∧ (100:ℚ) ≤ 100) ∧
    (wait_for_terminal_order (some 100)
        [some { status := "canceled", filled_size := some 100 }] =
      { status := some "canceled", filled_size := some (100:ℚ), filled := true }) ∧
    ((wait_for_terminal_order (some 100)
        [some { status := "live", filled_size := some 40 }, none]).filled = false) := by
  have h := c6_order_polling 100 100 "canceled" []
    [some { status := "live", filled_size := some (40:ℚ) }, none]
    (by norm_num) (le_refl _)
  refine ⟨⟨by norm_num, le_refl _⟩, h.1, h.2.1 ?_⟩
  intro p hp
  simp only [List.mem_cons, List.not_mem_nil, or_false] at hp
  rcases hp with rfl | rfl
  · simp only [nonTerminalPoll]
    constructor
    · norm_num [sizeReached, tol]
    · decide
  · simp only [nonTerminalPoll]

/-- C7 (amended): whenever not both legs report filled, the recovery
path cancels every leg with an extracted order id — the filled legs
included — and, for each leg confirmed filled whose book shows a truthy
best bid, submits exactly one opposite-side SELL at that bid with the
immediate-or-cancel time-in-force `FAK`; an unfilled leg is never
unwound. -/
theorem c7_recovery (up down : LegState) (up_oid down_oid : Option String)
    (yes_token no_token : String) (up_bid down_bid : Option ℚ) (order_size : ℚ)
    (h : ¬(up.filled = true ∧ down.filled = true)) :
    (pureArbFinish up down up_oid down_oid yes_token no_token up_bid down_bid order_size =
      .cleanup ([up_oid, down_oid].filterMap id)
        (unwindLeg up yes_token up_bid order_size ++
          unwindLeg down no_token down_bid order_size)) ∧
    (∀ b, up.filled = true → up_bid = some b → b ≠ 0 →
      unwindLeg up yes_token up_bid order_size = [⟨yes_token, b, order_size, "FAK"⟩]) ∧
    (up.filled = false → unwindLeg up yes_token up_bid order_size = []) ∧
    (∀ b, down.filled = true → down_bid = some b → b ≠ 0 →
      unwindLeg down no_token down_bid order_size = [⟨no_token, b, order_size, "FAK"⟩]) ∧
    (down.filled = false → unwindLeg down no_token down_bid order_size = []) := by
  refine ⟨?_, ?_, ?_, ?_, ?_⟩
  · have hb : (up.filled && down.filled) = false := by
      rcases Bool.eq_false_or_eq_true up.filled with h1 | h1
      · rcases Bool.eq_false_or_eq_true down.filled with h2 | h2
        · exact absurd ⟨h1, h2⟩ h
        · simp [h2]
      · simp [h1]
    simp [pureArbFinish, hb]
  · intro b hup hbid hb
    subst hbid
    simp [unwindLeg, hup, hb]
  · intro hup
    simp [unwindLeg, hup]
  · intro b hdn hbid hb
    subst hbid
    simp [unwindLeg, hdn, hb]
  · intro hdn
    simp [unwindLeg, hdn]

/-- C7 as literally stated is false on the code: with the UP leg filled
(order id "a") and the DOWN leg unfilled (order id "b"), the cleanup
cancels `["a", "b"]` — the filled leg's id "a" is among the legs
cancelled, because the source cancels every non-empty order id, not only
the unfilled ones. -/
theorem c7_recovery_counterexample :
    pureArbFinish { filled := true } { filled := false } (some "a") (some "b")
        "Y" "N" (some (45/100)) (some (46/100)) 50 =
      .cleanup ["a", "b"] [{ token_id := "Y", price := 45/100, size := 50, tif := "FAK" }] ∧
    "a" ∈ ["a", "b"] := by
  constructor
  · norm_num [pureArbFinish, unwindLeg]
    simp
  · simp

/-- Witness for `c7_recovery` at a concrete partial fill: UP filled,
DOWN not. -/
theorem c7_recovery_witness :
    (pureArbFinish { filled := true } { filled := false } (some "idU") (some "idD")
        "YES" "NO" (some (45/100)) (some (46/100)) 50 =
      .cleanup (["idU", "idD"])
        (unwindLeg { filled := true } "YES" (some (45/100)) 50 ++
          unwindLeg { filled := false } "NO" (some (46/100)) 50)) ∧
    (unwindLeg { filled := true } "YES" (some ((45:ℚ)/100)) 50 =
      [{ token_id := "YES", price := 45/100, size := 50, tif := "FAK" }]) ∧
    (unwindLeg { filled := false } "NO" (some ((46:ℚ)/100)) 50 = []) := by
  have h := c7_recovery { filled := true } { filled := false } (some "idU") (some "idD")
    "YES" "NO" (some (45/100)) (some (46/100)) 50 (by simp)
  refine ⟨?_, h.2.1 (45/100) rfl rfl (by norm_num), h.2.2.2.2 rfl⟩
  have h1 := h.1
  simpa using h1

/-! ## Cooldown lemmas -/

theorem executeOpp_skip (cfg : RiskConfig) (cd : ℚ) (s : BotState) (e : TradeAttempt)
    (h : e.time - s.last_trade_ts < cd) :
    executeOpp cfg cd s e = (.skippedCooldown, s) := by
  simp [executeOpp, h]

theorem runEvents_ge (cfg : RiskConfig) (cd : ℚ) (hcd : 0 ≤ cd) :
    ∀ (events : List TradeAttempt) (s : BotState),
      ∀ t ∈ runEvents cfg cd s events, s.last_trade_ts + cd ≤ t := by
  intro events
  induction events with
  | nil =>
    intro s t ht
    simp [runEvents] at ht
  | cons e rest ih =>
    intro s t ht
    by_cases hskip : e.time - s.last_trade_ts < cd
    · rw [show runEvents cfg cd s (e :: rest) = runEvents cfg cd s rest by
        simp [runEvents, executeOpp_skip cfg cd s e hskip]] at ht
      exact ih s t ht
    · push_neg at hskip
      have hstamp : (executeOpp cfg cd s e).2.last_trade_ts = e.time := by
        simp only [executeOpp, if_neg (not_lt.mpr hskip)]
        split <;> rfl
      have hstep : s.last_trade_ts + cd ≤ e.time := by linarith
      simp only [runEvents, List.mem_append] at ht
      rcases ht with ht | ht
      · have : t = e.time := by
          rcases Decidable.em ((executeOpp cfg cd s e).1 = .executed) with hx | hx
          · simpa [hx] using ht
          · simp [hx] at ht
        rw [this]
        exact hstep
      · have := ih (executeOpp cfg cd s e).2 t ht
        rw [hstamp] at this
        linarith

theorem runEvents_pairwise (cfg : RiskConfig) (cd : ℚ) (hcd : 0 ≤ cd) :
    ∀ (events : List TradeAttempt) (s : BotState),
      (runEvents cfg cd s events).Pairwise (fun a b => a + cd ≤ b) := by
  intro events
  induction events with
  | nil =>
    intro s
    simp [runEvents]
  | cons e rest ih =>
    intro s
    by_cases hskip : e.time - s.last_trade_ts < cd
    · rw [show runEvents cfg cd s (e :: rest) = runEvents cfg cd s rest by
        simp [runEvents, executeOpp_skip cfg cd s e hskip]]
      exact ih s
    · push_neg at hskip
      have hstamp : (executeOpp cfg cd s e).2.last_trade_ts = e.time := by
        simp only [executeOpp, if_neg (not_lt.mpr hskip)]
        split <;> rfl
      simp only [runEvents]
      rcases Decidable.em ((executeOpp cfg cd s e).1 = .executed) with hx | hx
      · rw [if_pos hx]
        simp only [List.singleton_append, List.pairwise_cons]
        refine ⟨?_, ih _⟩
        intro t ht
        have := runEvents_ge cfg cd hcd rest (executeOpp cfg cd s e).2 t ht
        rw [hstamp] at this
        exact this
      · rw [if_neg hx]
        simp only [List.nil_append]
        exact ih _

/-- C8 (confirmed): an opportunity arriving less than `cooldown_seconds`
after the last timestamp update is skipped with the whole bot state —
the risk gate included — untouched, before any authorization; and over
any sequence of incoming opportunities the times of the executed trades
are pairwise at least `cooldown_seconds` apart, so no two trades ever
fire inside one cooldown window. -/
theorem c8_cooldown (cfg : RiskConfig) (cd : ℚ) :
    (∀ (s : BotState) (e : TradeAttempt), e.time - s.last_trade_ts < cd →
      executeOpp cfg cd s e = (.skippedCooldown, s)) ∧
    (0 ≤ cd → ∀ (s : BotState) (events : List TradeAttempt),
      (runEvents cfg cd s events).Pairwise (fun a b => a + cd ≤ b)) :=
  ⟨fun s e h => executeOpp_skip cfg cd s e h,
    fun hcd s events => runEvents_pairwise cfg cd hcd events s⟩

/-- Witness for `c8_cooldown`: with a 60-second cooldown an opportunity
30 seconds after a trade is skipped with the state unchanged, and a
concrete three-opportunity run executes only the first and third. -/
theorem c8_cooldown_witness :
    (executeOpp { max_daily_loss := 500, max_position_size := 5000, max_single_bet := 500 }
        60 { last_trade_ts := 100, risk := initialRiskState }
        { time := 130, today := 0, cost := 10 } =
      (.skippedCooldown, { last_trade_ts := 100, risk := initialRiskState })) ∧
    (runEvents { max_daily_loss := 500, max_position_size := 5000, max_single_bet := 500 }
        60 { last_trade_ts := 0, risk := initialRiskState }
        [{ time := 100, today := 0, cost := 10 }, { time := 130, today := 0, cost := 10 },
         { time := 200, today := 0, cost := 10 }] = [100, 200]) ∧
    (List.Pairwise (fun a b => a + 60 ≤ b) ([100, 200] : List ℚ)) := by
  have hrun : runEvents { max_daily_loss := 500, max_position_size := 5000, max_single_bet := 500 }
      60 { last_trade_ts := 0, risk := initialRiskState }
      [{ time := 100, today := 0, cost := 10 }, { time := 130, today := 0, cost := 10 },
       { time := 200, today := 0, cost := 10 }] = [100, 200] := by
    norm_num [runEvents, executeOpp, check_can_trade, rollDaily, record_trade,
      initialRiskState]
    all_goals simp
  refine ⟨(c8_cooldown _ 60).1 _ _ (by norm_num), hrun, ?_⟩
  have := (c8_cooldown { max_daily_loss := 500, max_position_size := 5000, max_single_bet := 500 } 60).2
    (by norm_num) { last_trade_ts := 0, risk := initialRiskState }
    [{ time := 100, today := 0, cost := 10 }, { time := 130, today := 0, cost := 10 },
     { time := 200, today := 0, cost := 10 }]
  rw [hrun] at this
  exact this

/-! ## Fusion lemmas -/

theorem fuseWeight_pos (win : Option MomentumSignal) (i : ℕ) (sig : MomentumSignal) :
    0 < fuseWeight win i sig := by
  simp only [fuseWeight]
  split
  · norm_num
  · positivity

theorem fuseWeight_nonneg (win : Option MomentumSignal) (i : ℕ) (sig : MomentumSignal) :
    0 ≤ fuseWeight win i sig := le_of_lt (fuseWeight_pos win i sig)

theorem totalWeight_pos (win : Option MomentumSignal) (s0 : MomentumSignal)
    (rest : List MomentumSignal) :
    0 < (((s0 :: rest).enum.map fun p => fuseWeight win p.1 p.2)).sum := by
  apply List.sum_pos
  · intro x hx
    obtain ⟨p, _, rfl⟩ := List.mem_map.mp hx
    exact fuseWeight_pos win p.1 p.2
  · simp [List.enum_cons]

theorem fuseList_disagree (win : Option MomentumSignal) (now : ℚ)
    (sigs : List MomentumSignal)
    (h : ∃ a ∈ sigs, ∃ b ∈ sigs, a.direction ≠ b.direction) :
    fuseList win now sigs = none := by
  obtain ⟨a, ha, b, hb, hab⟩ := h
  cases sigs with
  | nil => simp at ha
  | cons s0 rest =>
    have hany : (rest.any fun s => decide (s.direction ≠ s0.direction)) = true := by
      rw [List.any_eq_true]
      rcases List.mem_cons.mp ha with rfl | ha'
      · rcases List.mem_cons.mp hb with rfl | hb'
        · exact absurd rfl hab
        · exact ⟨b, hb', decide_eq_true (Ne.symm hab)⟩
      · rcases Decidable.em (a.direction = s0.direction) with hda | hda
        · rcases List.mem_cons.mp hb with rfl | hb'
          · exact absurd hda hab
          · exact ⟨b, hb', decide_eq_true (fun hbs => hab (hda.trans hbs.symm))⟩
        · exact ⟨a, ha', decide_eq_true hda⟩
    simp only [fuseList, hany, if_true]

theorem fuseList_confidence (win : Option MomentumSignal) (now : ℚ)
    (s0 : MomentumSignal) (rest : List MomentumSignal)
    (hag : (rest.any fun s => decide (s.direction ≠ s0.direction)) = false) :
    (fuseList win now (s0 :: rest)).map (fun o => o.confidence) =
      some ((((s0 :: rest).enum.map fun p => p.2.confidence * fuseWeight win p.1 p.2)).sum /
        (((s0 :: rest).enum.map fun p => fuseWeight win p.1 p.2)).sum) := by
  have hpos := totalWeight_pos win s0 rest
  simp only [fuseList, hag, Bool.false_eq_true, if_false, if_pos hpos]
  rfl

theorem fuse_entries_eq (lbs : List MomentumSignal) (win : Option MomentumSignal)
    (hnc : ∀ s ∈ lbs, some s ≠ win) :
    ((lbs ++ win.toList).enum.map fun p => (p.2.confidence, fuseWeight win p.1 p.2)) =
      (lbs.enum.map fun p => (p.2.confidence, 1 + (p.1 : ℚ) * (1/2))) ++
        (win.toList.map fun s => (s.confidence, (3:ℚ))) := by
  rw [List.enum_append, List.map_append]
  congr 1
  · apply List.map_congr_left
    intro p hp
    have hmem : p.2 ∈ lbs := by
      have := List.mem_map_of_mem Prod.snd hp
      rwa [List.enum_map_snd] at this
    have hne : ¬win = some p.2 := fun hw => hnc p.2 hmem hw.symm
    simp [fuseWeight, hne]
  · cases win with
    | none => rfl
    | some w => simp [List.enumFrom, fuseWeight]

theorem weights_eq_claimed (lbs : List MomentumSignal) (win : Option MomentumSignal)
    (hnc : ∀ s ∈ lbs, some s ≠ win) :
    (((lbs ++ win.toList).enum.map fun p => p.2.confidence * fuseWeight win p.1 p.2)).sum /
      (((lbs ++ win.toList).enum.map fun p => fuseWeight win p.1 p.2)).sum =
      claimedFusedConf lbs win := by
  have hent := fuse_entries_eq lbs win hnc
  simp only [claimedFusedConf]
  rw [show ((lbs ++ win.toList).enum.map fun p => p.2.confidence * fuseWeight win p.1 p.2) =
      (((lbs.enum.map fun p => (p.2.confidence, 1 + (p.1:ℚ) * (1/2))) ++
        (win.toList.map fun s => (s.confidence, (3:ℚ)))).map fun e => e.1 * e.2) by
    rw [← hent, List.map_map]
    rfl]
  rw [show ((lbs ++ win.toList).enum.map fun p => fuseWeight win p.1 p.2) =
      (((lbs.enum.map fun p => (p.2.confidence, 1 + (p.1:ℚ) * (1/2))) ++
        (win.toList.map fun s => (s.confidence, (3:ℚ)))).map fun e => e.2) by
    rw [← hent, List.map_map]
    rfl]

/-- C3 (amended): fusion returns absent whenever two evaluated non-absent
signals disagree in direction; when they agree and no lookback signal
coincides by value with the window-start signal, the fused confidence is
the weighted average with positional weights `1.0 + 0.5*i` and fixed
weight `3.0` for the window-start signal (a value-coincident lookback
would receive weight `3.0` too, since the source compares by dataclass
equality); the spec scenario's fused confidence is `121/180 ≈ 0.6722`,
not `0.6556`. -/
theorem c3_momentum_fusion (s15 s30 s60 win : Option MomentumSignal) (now : ℚ) :
    ((∃ a ∈ ([s15, s30, s60].filterMap id ++ win.toList),
        ∃ b ∈ ([s15, s30, s60].filterMap id ++ win.toList), a.direction ≠ b.direction) →
      fuseList win now ([s15, s30, s60].filterMap id ++ win.toList) = none) ∧
    ((∀ s ∈ [s15, s30, s60].filterMap id, some s ≠ win) →
      ∀ out, fuseList win now ([s15, s30, s60].filterMap id ++ win.toList) = some out →
        out.confidence = claimedFusedConf ([s15, s30, s60].filterMap id) win) := by
  constructor
  · exact fun h => fuseList_disagree win now _ h
  · intro hnc out hout
    rcases hsig : ([s15, s30, s60].filterMap id ++ win.toList) with _ | ⟨s0, rest⟩
    · rw [hsig] at hout
      exact Option.noConfusion hout
    · rw [hsig] at hout
      by_cases hag : (rest.any fun s => decide (s.direction ≠ s0.direction)) = true
      · rw [show fuseList win now (s0 :: rest) = none by
          simp only [fuseList, hag, if_true]] at hout
        exact Option.noConfusion hout
      · have hag' : (rest.any fun s => decide (s.direction ≠ s0.direction)) = false := by
          simpa using hag
        have hconf := fuseList_confidence win now s0 rest hag'
        rw [hout] at hconf
        have hc : out.confidence =
            (((s0 :: rest).enum.map fun p => p.2.confidence * fuseWeight win p.1 p.2)).sum /
              (((s0 :: rest).enum.map fun p => fuseWeight win p.1 p.2)).sum := by
          simpa using hconf
        rw [hc, ← hsig]
        exact weights_eq_claimed ([s15, s30, s60].filterMap id) win hnc

/-- C3's scenario value as literally stated is false on the code: with
lookback signals of confidences [0.55, 0.65, 0.75], all UP, and no
window-start signal, the fused confidence the feed computes is
`121/180 = 0.6722...`, not `0.6556` — the spec's own weighted-average
formula evaluates to `121/180`. -/
theorem c3_momentum_fusion_counterexample :
    ((get_multi_timeframe_signal
        [{ price := 20000000/2003, timestamp := 40 },
         { price := 12500000/1251, timestamp := 70 },
         { price := 20000000/2001, timestamp := 85 }]
        (some 10000) none 0 100).map (fun o => o.confidence) = some (121/180)) ∧
    (121:ℚ)/180 ≠ 6556/10000 := by
  constructor
  · have h15 : get_momentum
        [{ price := 20000000/2003, timestamp := 40 },
         { price := 12500000/1251, timestamp := 70 },
         { price := 20000000/2001, timestamp := 85 }] (some 10000) 100 15 =
        some { direction := .UP, confidence := 55/100, price_change_pct := 1/20,
               current_price := 10000, reference_price := 20000000/2001,
               window_seconds := 15, timestamp := 100 } := by
      norm_num [get_momentum, List.find?, momentumConfidence, abs]
      simp
    have h30 : get_momentum
        [{ price := 20000000/2003, timestamp := 40 },
         { price := 12500000/1251, timestamp := 70 },
         { price := 20000000/2001, timestamp := 85 }] (some 10000) 100 30 =
        some { direction := .UP, confidence := 65/100, price_change_pct := 2/25,
               current_price := 10000, reference_price := 12500000/1251,
               window_seconds := 30, timestamp := 100 } := by
      norm_num [get_momentum, List.find?, momentumConfidence, abs]
      simp
    have h60 : get_momentum
        [{ price := 20000000/2003, timestamp := 40 },
         { price := 12500000/1251, timestamp := 70 },
         { price := 20000000/2001, timestamp := 85 }] (some 10000) 100 60 =
        some { direction := .UP, confidence := 75/100, price_change_pct := 3/20,
               current_price := 10000, reference_price := 20000000/2003,
               window_seconds := 60, timestamp := 100 } := by
      norm_num [get_momentum, List.find?, momentumConfidence, abs]
      simp
    simp only [get_multi_timeframe_signal, List.filterMap_cons, List.filterMap_nil,
      h15, h30, h60, get_window_momentum, Option.toList]
    norm_num [fuseList, fuseWeight, List.enum, List.enumFrom]
    simp only [reduceCtorEq, if_false]
    norm_num
  · norm_num

/-- Witness for `c3_momentum_fusion` at the spec scenario (three UP
lookback signals with confidences 0.55, 0.65, 0.75, no window signal):
the fused confidence equals the claimed positional weighted average,
which is `121/180`. -/
theorem c3_momentum_fusion_witness :
    ((fuseList none 100
        ([some { direction := .UP, confidence := 55/100, price_change_pct := 1/20,
                 current_price := 10000, reference_price := 20000000/2001,
                 window_seconds := 15, timestamp := 100 },
          some { direction := .UP, confidence := 65/100, price_change_pct := 2/25,
                 current_price := 10000, reference_price := 12500000/1251,
                 window_seconds := 30, timestamp := 100 },
          some { direction := .UP, confidence := 75/100, price_change_pct := 3/20,
                 current_price := 10000, reference_price := 20000000/2003,
                 window_seconds := 60, timestamp := 100 }].filterMap id ++
          (none : Option MomentumSignal).toList)).map (fun o => o.confidence) =
      some (claimedFusedConf
        ([some { direction := .UP, confidence := 55/100, price_change_pct := 1/20,
                 current_price := 10000, reference_price := 20000000/2001,
                 window_seconds := 15, timestamp := 100 },
          some { direction := .UP, confidence := 65/100, price_change_pct := 2/25,
                 current_price := 10000, reference_price := 12500000/1251,
                 window_seconds := 30, timestamp := 100 },
          some { direction := .UP, confidence := 75/100, price_change_pct := 3/20,
                 current_price := 10000, reference_price := 20000000/2003,
                 window_seconds := 60, timestamp := 100 }].filterMap id) none)) ∧
    claimedFusedConf
        ([some { direction := .UP, confidence := 55/100, price_change_pct := 1/20,
                 current_price := 10000, reference_price := 20000000/2001,
                 window_seconds := 15, timestamp := 100 },
          some { direction := .UP, confidence := 65/100, price_change_pct := 2/25,
                 current_price := 10000, reference_price := 12500000/1251,
                 window_seconds := 30, timestamp := 100 },
          some { direction := .UP, confidence := 75/100, price_change_pct := 3/20,
                 current_price := 10000, reference_price := 20000000/2003,
                 window_seconds := 60, timestamp := 100 }].filterMap id) none = 121/180 := by
  have heval : fuseList none 100
      ([some { direction := .UP, confidence := 55/100, price_change_pct := 1/20,
               current_price := 10000, reference_price := 20000000/2001,
               window_seconds := 15, timestamp := 100 },
        some { direction := .UP, confidence := 65/100, price_change_pct := 2/25,
               current_price := 10000, reference_price := 12500000/1251,
               window_seconds := 30, timestamp := 100 },
        some { direction := .UP, confidence := 75/100, price_change_pct := 3/20,
               current_price := 10000, reference_price := 20000000/2003,
               window_seconds := 60, timestamp := 100 }].filterMap id ++
        (none : Option MomentumSignal).toList) =
      some { direction := .UP, confidence := 121/180, price_change_pct := 3/20,
             current_price := 10000, reference_price := 20000000/2003,
             window_seconds := 60, timestamp := 100 } := by
    simp only [List.filterMap_cons, List.filterMap_nil, Option.toList]
    norm_num [fuseList, fuseWeight, List.enum, List.enumFrom]
    simp only [reduceCtorEq, if_false]
    norm_num
  have happ := (c3_momentum_fusion _ _ _ none 100).2 (by simp) _ heval
  constructor
  · rw [heval]
    exact congrArg some happ
  · rw [← happ]

/-! ## Confidence bound lemmas -/

theorem momentumConfidence_bounds (x : ℚ) :
    45/100 ≤ momentumConfidence x ∧ momentumConfidence x ≤ 95/100 := by
  unfold momentumConfidence
  split_ifs <;> norm_num

theorem windowConfidence_bounds (x : ℚ) :
    45/100 ≤ windowConfidence x ∧ windowConfidence x ≤ 95/100 := by
  unfold windowConfidence
  split_ifs <;> norm_num

theorem get_momentum_spec (prices : List PriceSnapshot) (cur0 : Option ℚ) (now : ℚ)
    (lb : ℤ) (sig : MomentumSignal) (h : get_momentum prices cur0 now lb = some sig) :
    (45/100 ≤ sig.confidence ∧ sig.confidence ≤ 95/100) ∧
    (sig.direction = .UP ↔ 0 < sig.price_change_pct) ∧
    (sig.direction = .DOWN ↔ sig.price_change_pct < 0) := by
  rcases cur0 with _ | cur
  · exact Option.noConfusion h
  · simp only [get_momentum] at h
    split at h
    · exact Option.noConfusion h
    · split at h
      · exact Option.noConfusion h
      · rename_i snap hfind
        split at h
        · exact Option.noConfusion h
        · split at h
          · exact Option.noConfusion h
          · rename_i hzero habs
            have hs := Option.some.inj h
            subst hs
            have hne : (cur - snap.price) / snap.price * 100 ≠ 0 := by
              intro h0
              rw [h0] at habs
              norm_num at habs
            refine ⟨momentumConfidence_bounds _, ?_, ?_⟩
            · show (if 0 < (cur - snap.price) / snap.price * 100 then Dir.UP else Dir.DOWN)
                  = Dir.UP ↔ 0 < (cur - snap.price) / snap.price * 100
              by_cases hc : 0 < (cur - snap.price) / snap.price * 100
              · rw [if_pos hc]
                exact iff_of_true rfl hc
              · rw [if_neg hc]
                exact iff_of_false (by decide) hc
            · show (if 0 < (cur - snap.price) / snap.price * 100 then Dir.UP else Dir.DOWN)
                  = Dir.DOWN ↔ (cur - snap.price) / snap.price * 100 < 0
              by_cases hc : 0 < (cur - snap.price) / snap.price * 100
              · rw [if_pos hc]
                exact iff_of_false (by decide) (not_lt.mpr (le_of_lt hc))
              · rw [if_neg hc]
                exact iff_of_true rfl (lt_of_le_of_ne (not_lt.mp hc) hne)

theorem get_window_momentum_spec (wsp cur0 : Option ℚ) (wst now : ℚ)
    (sig : MomentumSignal) (h : get_window_momentum wsp cur0 wst now = some sig) :
    (45/100 ≤ sig.confidence ∧ sig.confidence ≤ 95/100) ∧
    (sig.direction = .UP ↔ 0 < sig.price_change_pct) ∧
    (sig.direction = .DOWN ↔ sig.price_change_pct < 0) := by
  rcases wsp with _ | w
  · exact Option.noConfusion h
  · rcases cur0 with _ | cur
    · exact Option.noConfusion h
    · simp only [get_window_momentum] at h
      split at h
      · exact Option.noConfusion h
      · split at h
        · exact Option.noConfusion h
        · rename_i hzero habs
          have hs := Option.some.inj h
          subst hs
          have hne : (cur - w) / w * 100 ≠ 0 := by
            intro h0
            rw [h0] at habs
            norm_num at habs
          refine ⟨windowConfidence_bounds _, ?_, ?_⟩
          · show (if 0 < (cur - w) / w * 100 then Dir.UP else Dir.DOWN)
                = Dir.UP ↔ 0 < (cur - w) / w * 100
            by_cases hc : 0 < (cur - w) / w * 100
            · rw [if_pos hc]
              exact iff_of_true rfl hc
            · rw [if_neg hc]
              exact iff_of_false (by decide) hc
          · show (if 0 < (cur - w) / w * 100 then Dir.UP else Dir.DOWN)
                = Dir.DOWN ↔ (cur - w) / w * 100 < 0
            by_cases hc : 0 < (cur - w) / w * 100
            · rw [if_pos hc]
              exact iff_of_false (by decide) (not_lt.mpr (le_of_lt hc))
            · rw [if_neg hc]
              exact iff_of_true rfl (lt_of_le_of_ne (not_lt.mp hc) hne)

theorem sum_conf_le (win : Option MomentumSignal) (hi : ℚ) (l : List (ℕ × MomentumSignal))
    (h : ∀ p ∈ l, p.2.confidence ≤ hi) :
    (l.map fun p => p.2.confidence * fuseWeight win p.1 p.2).sum ≤
      hi * (l.map fun p => fuseWeight win p.1 p.2).sum := by
  induction l with
  | nil => simp
  | cons x xs ih =>
    simp only [List.map_cons, List.sum_cons, mul_add]
    have h1 : x.2.confidence * fuseWeight win x.1 x.2 ≤ hi * fuseWeight win x.1 x.2 :=
      mul_le_mul_of_nonneg_right (h x (by simp)) (fuseWeight_nonneg _ _ _)
    have h2 := ih (fun p hp => h p (by simp [hp]))
    exact add_le_add h1 h2

theorem sum_conf_ge (win : Option MomentumSignal) (lo : ℚ) (l : List (ℕ × MomentumSignal))
    (h : ∀ p ∈ l, lo ≤ p.2.confidence) :
    lo * (l.map fun p => fuseWeight win p.1 p.2).sum ≤
      (l.map fun p => p.2.confidence * fuseWeight win p.1 p.2).sum := by
  induction l with
  | nil => simp
  | cons x xs ih =>
    simp only [List.map_cons, List.sum_cons, mul_add]
    have h1 : lo * fuseWeight win x.1 x.2 ≤ x.2.confidence * fuseWeight win x.1 x.2 :=
      mul_le_mul_of_nonneg_right (h x (by simp)) (fuseWeight_nonneg _ _ _)
    have h2 := ih (fun p hp => h p (by simp [hp]))
    exact add_le_add h1 h2

theorem fuseList_conf_between (win : Option MomentumSignal) (now : ℚ)
    (sigs : List MomentumSignal) (lo hi : ℚ)
    (hb : ∀ s ∈ sigs, lo ≤ s.confidence ∧ s.confidence ≤ hi)
    (out : MomentumSignal) (h : fuseList win now sigs = some out) :
    lo ≤ out.confidence ∧ out.confidence ≤ hi := by
  cases sigs with
  | nil => exact Option.noConfusion h
  | cons s0 rest =>
    by_cases hag : (rest.any fun s => decide (s.direction ≠ s0.direction)) = true
    · rw [show fuseList win now (s0 :: rest) = none by
        simp only [fuseList, hag, if_true]] at h
      exact Option.noConfusion h
    · have hag' : (rest.any fun s => decide (s.direction ≠ s0.direction)) = false := by
        simpa using hag
      have hconf := fuseList_confidence win now s0 rest hag'
      rw [h] at hconf
      have hc : out.confidence =
          (((s0 :: rest).enum.map fun p => p.2.confidence * fuseWeight win p.1 p.2)).sum /
            (((s0 :: rest).enum.map fun p => fuseWeight win p.1 p.2)).sum := by
        simpa using hconf
      have hpos := totalWeight_pos win s0 rest
      have hmem : ∀ p ∈ (s0 :: rest).enum, lo ≤ p.2.confidence ∧ p.2.confidence ≤ hi := by
        intro p hp
        apply hb
        have := List.mem_map_of_mem Prod.snd hp
        rwa [List.enum_map_snd] at this
      have hle := sum_conf_le win hi _ (fun p hp => (hmem p hp).2)
      have hge := sum_conf_ge win lo _ (fun p hp => (hmem p hp).1)
      rw [hc]
      constructor
      · rw [le_div_iff hpos]
        exact hge
      · rw [div_le_iff hpos]
        linarith

/-- C10 (confirmed): every signal `get_momentum` or `get_window_momentum`
returns has confidence in `[0.45, 0.95]` and direction UP exactly when
its price change is positive (DOWN exactly when negative); a fused
signal's confidence lies between any common bounds of its components;
hence every signal `get_multi_timeframe_signal` can produce has
confidence in `[0.45, 0.95]` — strictly inside `[0, 1]`, never exactly 0
or 1. -/
theorem c10_confidence_bounds :
    (∀ (prices : List PriceSnapshot) (cur : Option ℚ) (now : ℚ) (lb : ℤ)
      (sig : MomentumSignal), get_momentum prices cur now lb = some sig →
      (45/100 ≤ sig.confidence ∧ sig.confidence ≤ 95/100) ∧
      (sig.direction = .UP ↔ 0 < sig.price_change_pct) ∧
      (sig.direction = .DOWN ↔ sig.price_change_pct < 0)) ∧
    (∀ (wsp cur : Option ℚ) (wst now : ℚ) (sig : MomentumSignal),
      get_window_momentum wsp cur wst now = some sig →
      (45/100 ≤ sig.confidence ∧ sig.confidence ≤ 95/100) ∧
      (sig.direction = .UP ↔ 0 < sig.price_change_pct) ∧
      (sig.direction = .DOWN ↔ sig.price_change_pct < 0)) ∧
    (∀ (win : Option MomentumSignal) (now : ℚ) (sigs : List MomentumSignal) (lo hi : ℚ)
      (out : MomentumSignal), (∀ s ∈ sigs, lo ≤ s.confidence ∧ s.confidence ≤ hi) →
      fuseList win now sigs = some out → lo ≤ out.confidence ∧ out.confidence ≤ hi) ∧
    (∀ (prices : List PriceSnapshot) (cur wsp : Option ℚ) (wst now : ℚ)
      (out : MomentumSignal),
      get_multi_timeframe_signal prices cur wsp wst now = some out →
      45/100 ≤ out.confidence ∧ out.confidence ≤ 95/100) := by
  refine ⟨get_momentum_spec, get_window_momentum_spec,
    fun win now sigs lo hi out hb h => fuseList_conf_between win now sigs lo hi hb out h,
    ?_⟩
  intro prices cur wsp wst now out h
  simp only [get_multi_timeframe_signal] at h
  refine fuseList_conf_between _ now _ (45/100) (95/100) ?_ out h
  intro s hs
  rcases List.mem_append.mp hs with hs | hs
  · obtain ⟨lb, _, heq⟩ := List.mem_filterMap.mp hs
    exact (get_momentum_spec prices cur now lb s heq).1
  · have hw : get_window_momentum wsp cur wst now = some s := by
      cases hww : get_window_momentum wsp cur wst now with
      | none => rw [hww] at hs; simp [Option.toList] at hs
      | some w =>
        rw [hww] at hs
        simp only [Option.toList, List.mem_singleton] at hs
        exact congrArg some hs.symm
    exact (get_window_momentum_spec wsp cur wst now s hw).1

/-- Witness for `c10_confidence_bounds`: a concrete `get_momentum` signal
with confidence 0.65 and a concrete fused pipeline signal with
confidence 0.65, both inside `[0.45, 0.95]`. -/
theorem c10_confidence_bounds_witness :
    (get_momentum [{ price := 100, timestamp := 50 }] (some (1001/10)) 60 15 =
      some { direction := .UP, confidence := 65/100, price_change_pct := 1/10,
             current_price := 1001/10, reference_price := 100,
             window_seconds := 15, timestamp := 60 }) ∧
    ((45:ℚ)/100 ≤ 65/100 ∧ (65:ℚ)/100 ≤ 95/100) ∧
    (get_multi_timeframe_signal [{ price := 100, timestamp := 50 }]
        (some (1001/10)) none 0 60 =
      some { direction := .UP, confidence := 13/20, price_change_pct := 1/10,
             current_price := 1001/10, reference_price := 100,
             window_seconds := 60, timestamp := 60 }) ∧
    ((45:ℚ)/100 ≤ 13/20 ∧ (13:ℚ)/20 ≤ 95/100) := by
  have h15 : get_momentum [{ price := 100, timestamp := 50 }] (some (1001/10)) 60 15 =
      some { direction := .UP, confidence := 65/100, price_change_pct := 1/10,
             current_price := 1001/10, reference_price := 100,
             window_seconds := 15, timestamp := 60 } := by
    norm_num [get_momentum, List.find?, momentumConfidence, abs]
  have h30 : get_momentum [{ price := 100, timestamp := 50 }] (some (1001/10)) 60 30 =
      some { direction := .UP, confidence := 65/100, price_change_pct := 1/10,
             current_price := 1001/10, reference_price := 100,
             window_seconds := 30, timestamp := 60 } := by
    norm_num [get_momentum, List.find?, momentumConfidence, abs]
  have h60 : get_momentum [{ price := 100, timestamp := 50 }] (some (1001/10)) 60 60 =
      some { direction := .UP, confidence := 65/100, price_change_pct := 1/10,
             current_price := 1001/10, reference_price := 100,
             window_seconds := 60, timestamp := 60 } := by
    norm_num [get_momentum, List.find?, momentumConfidence, abs]
  have h4 : get_multi_timeframe_signal [{ price := 100, timestamp := 50 }]
      (some (1001/10)) none 0 60 =
      some { direction := .UP, confidence := 13/20, price_change_pct := 1/10,
             current_price := 1001/10, reference_price := 100,
             window_seconds := 60, timestamp := 60 } := by
    simp only [get_multi_timeframe_signal, List.filterMap_cons, List.filterMap_nil,
      h15, h30, h60, get_window_momentum, Option.toList]
    norm_num [fuseList, fuseWeight, List.enum, List.enumFrom]
    simp only [reduceCtorEq, if_false]
    norm_num
  refine ⟨h15, ?_, h4, ?_⟩
  · exact (c10_confidence_bounds.1 _ _ _ _ _ h15).1
  · exact c10_confidence_bounds.2.2.2 _ _ _ _ _ _ h4

end PolyBot
